import Mathlib

/-!
# Verification of the Mini Inventory Management System core

Shallow embedding of `inventory_system.py`: the SQLite-backed product store
(`fetch_products`, `insert_product`, `update_product`, `delete_product`),
the credential check (`check_credentials`, seeding in `init_db`), and the
dashboard aggregation (`InventoryApp.update_dashboard`).

Modelling conventions:
* The `products` table is a `Store`: a list of `Product` rows plus the
  AUTOINCREMENT counter (`nextId`, starting at 1 as SQLite does).
* `quantity INTEGER` / `price REAL` columns are nullable in the schema, so
  they are `Option Int` / `Option ℚ` (`REAL` is modelled exactly by `ℚ`;
  every value written by the program is a decimal with short fraction).
* `added_on` is produced by `datetime.now()`; the formatted timestamp is an
  oracle input threaded into `insert_product` as an explicit argument.
* SQL `LIKE` is modelled by `likeMatch`, following SQLite's default
  `patternCompare`: `%` matches any sequence, `_` any single character, and
  plain characters compare ASCII-case-insensitively (SQLite's default
  `case_sensitive_like` is off and folds only A–Z).
* `ORDER BY id DESC` is modelled by insertion sort with `b.id ≤ a.id`
  (ids are unique under the `PRIMARY KEY` constraint, so ties are moot).
* The `except` branches of the Python functions model storage failures of
  the SQLite engine, which are outside the pure state model; on the pure
  model every statement succeeds, hence the functions return `true`.
-/

namespace Inventory

/-- A row of the `products` table (`id, name, category, quantity, price,
added_on`).  `name` is `NOT NULL`; the other payload columns are nullable. -/
structure Product where
  id : Nat
  name : String
  category : Option String
  quantity : Option Int
  price : Option ℚ
  added_on : String
deriving DecidableEq

/-- The persistent state of the `products` table: the stored rows plus the
AUTOINCREMENT counter for the next `id` (SQLite assigns ids 1, 2, 3, …). -/
structure Store where
  nextId : Nat
  rows : List Product
deriving DecidableEq

/-- The freshly created database: no rows, next id 1. -/
def emptyStore : Store := ⟨1, []⟩

/-- Python `int(x or 0)` applied to the fetched `quantity` column: `NULL`
(and `0` itself, which is falsy) becomes `0`. -/
def qv : Option Int → Int
  | none => 0
  | some n => n

/-- Python `float(x or 0.0)` applied to the fetched `price` column. -/
def pv : Option ℚ → ℚ
  | none => 0
  | some x => x

/-- SQLite's default `LIKE` case folding: only ASCII A–Z are folded (we fold
to lower case); all other code points compare verbatim. -/
def lowerChar (c : Char) : Nat :=
  if 65 ≤ c.toNat ∧ c.toNat ≤ 90 then c.toNat + 32 else c.toNat

/-- Fuelled SQL `LIKE` pattern matcher (SQLite `patternCompare` semantics):
`%` matches any sequence of zero or more characters, `_` matches exactly one
character, and any other pattern character matches a single text character
ASCII-case-insensitively.  The fuel only serves structural termination;
`p.length + s.length` recursion depth suffices (see `likeMatchF_congr`). -/
def likeMatchF : Nat → List Char → List Char → Bool
  | 0, _, _ => false
  | _ + 1, [], s => s.isEmpty
  | fuel + 1, p :: ps, [] =>
    if p = '%' then likeMatchF fuel ps [] else false
  | fuel + 1, p :: ps, c :: s2 =>
    if p = '%' then
      likeMatchF fuel ps (c :: s2) || likeMatchF fuel (p :: ps) s2
    else if p = '_' then likeMatchF fuel ps s2
    else (lowerChar p == lowerChar c) && likeMatchF fuel ps s2

/-- SQL `LIKE`: `likeMatch pattern text`. -/
def likeMatch (p s : List Char) : Bool :=
  likeMatchF (p.length + s.length + 1) p s

/-- The `WHERE name LIKE ? OR category LIKE ?` row predicate of
`fetch_products`.  A `NULL` category makes `category LIKE ?` SQL-`NULL`,
which does not satisfy the `WHERE` clause, so only `name` can match then. -/
def rowMatches (pat : List Char) (r : Product) : Bool :=
  likeMatch pat r.name.data ||
    (match r.category with
      | none => false
      | some c => likeMatch pat c.data)

/-- Insert `a` in front of the first element `b` with `le a b`. -/
def insertBy (le : α → α → Bool) (a : α) : List α → List α
  | [] => [a]
  | b :: l => if le a b then a :: b :: l else b :: insertBy le a l

/-- Stable insertion sort, used to model `ORDER BY` (and the stable
descending sort underlying `Counter.most_common`). -/
def sortBy (le : α → α → Bool) : List α → List α
  | [] => []
  | a :: l => insertBy le a (sortBy le l)

/-- `ORDER BY id DESC` comparison. -/
def prodDesc (a b : Product) : Bool := b.id ≤ a.id

/-- `fetch_products(search_text)`: all rows, or the rows whose `name` or
`category` matches `LIKE '%' || search_text || '%'` when `search_text` is
non-empty (Python truthiness: `if search_text:`), ordered by `id DESC`. -/
def fetch_products (search_text : String) (s : Store) : List Product :=
  if search_text = "" then sortBy prodDesc s.rows
  else sortBy prodDesc
    (s.rows.filter (rowMatches ('%' :: (search_text.data ++ ['%']))))

/-- `insert_product`: appends a new row with the next AUTOINCREMENT id and
the `datetime.now()` timestamp `now`; returns the Python function's `True`
together with the new state. -/
def insert_product (name : String) (category : Option String)
    (quantity : Option Int) (price : Option ℚ) (now : String) (s : Store) :
    Bool × Store :=
  (true, ⟨s.nextId + 1,
    s.rows ++ [⟨s.nextId, name, category, quantity, price, now⟩]⟩)

/-- `update_product`: `UPDATE products SET name=?, category=?, quantity=?,
price=? WHERE id=?`.  Rows with a different id — and every `added_on`
field — are untouched; the function returns `True` whether or not any row
was affected. -/
def update_product (product_id : Nat) (name : String)
    (category : Option String) (quantity : Option Int) (price : Option ℚ)
    (s : Store) : Bool × Store :=
  (true, ⟨s.nextId,
    s.rows.map (fun r =>
      if r.id = product_id then
        { r with name := name, category := category,
                 quantity := quantity, price := price }
      else r)⟩)

/-- `delete_product`: `DELETE FROM products WHERE id=?`; returns `True`
whether or not any row was deleted. -/
def delete_product (product_id : Nat) (s : Store) : Bool × Store :=
  (true, ⟨s.nextId, s.rows.filter (fun r => r.id != product_id)⟩)

/-- `r[2] or "Uncategorized"` in `update_dashboard`: `NULL` and the empty
string (both falsy in Python) are folded into `"Uncategorized"`. -/
def catLabel : Option String → String
  | none => "Uncategorized"
  | some c => if c = "" then "Uncategorized" else c

/-- One step of `collections.Counter` aggregation: bump the count of `c` if
present, otherwise append `(c, 1)` (dict insertion order = first encounter). -/
def addCount (acc : List (String × Nat)) (c : String) : List (String × Nat) :=
  if acc.any (fun q => q.1 = c) then
    acc.map (fun q => if q.1 = c then (q.1, q.2 + 1) else q)
  else acc ++ [(c, 1)]

/-- `collections.Counter(l)` as an association list in first-encounter key
order. -/
def countOcc (l : List String) : List (String × Nat) := l.foldl addCount []

/-- Comparison used by `Counter.most_common`: descending by count, stable. -/
def cntDesc (a b : String × Nat) : Bool := b.2 ≤ a.2

/-- The aggregates computed by `InventoryApp.update_dashboard`. -/
structure Dashboard where
  total_products : Nat
  total_quantity : Int
  total_value : ℚ
  top_categories : List (String × Nat)
deriving DecidableEq

/-- `InventoryApp.update_dashboard`: totals over `fetch_products()` and
`dict(Counter(categories).most_common(8))`.  `most_common(8)` is CPython's
`heapq.nlargest(8, items, key=count)`, documented to equal
`sorted(items, key=count, reverse=True)[:8]` with a stable sort. -/
def update_dashboard (s : Store) : Dashboard :=
  { total_products := (fetch_products "" s).length
    total_quantity := ((fetch_products "" s).map (fun r => qv r.quantity)).sum
    total_value :=
      ((fetch_products "" s).map
        (fun r => (qv r.quantity : ℚ) * pv r.price)).sum
    top_categories :=
      (sortBy cntDesc (countOcc
        ((fetch_products "" s).map (fun r => catLabel r.category)))).take 8 }

/-! ## Credential store

`check_credentials` compares `hashlib.sha256(password).hexdigest()` against
the stored `password_hash`; `init_db` seeds `(1, "admin",
sha256("admin123"))` with `INSERT OR IGNORE`.  SHA-256 is embedded below as
pure arithmetic on `Nat` (32-bit words, overflow via `% 2^32`). -/

/-- `2^32`, the word modulus of SHA-256. -/
def M32 : Nat := 4294967296

/-- 32-bit right rotation. -/
def rotr (r x : Nat) : Nat := ((x >>> r) ||| (x <<< (32 - r))) % M32

/-- SHA-256 `Ch(x,y,z) = (x ∧ y) ⊕ (¬x ∧ z)` (complement via xor mask). -/
def shaCh (x y z : Nat) : Nat := (x &&& y) ^^^ ((x ^^^ (M32 - 1)) &&& z)

/-- SHA-256 `Maj(x,y,z)`. -/
def shaMaj (x y z : Nat) : Nat := (x &&& y) ^^^ (x &&& z) ^^^ (y &&& z)

/-- SHA-256 `Σ₀`. -/
def bigS0 (x : Nat) : Nat := rotr 2 x ^^^ rotr 13 x ^^^ rotr 22 x

/-- SHA-256 `Σ₁`. -/
def bigS1 (x : Nat) : Nat := rotr 6 x ^^^ rotr 11 x ^^^ rotr 25 x

/-- SHA-256 `σ₀`. -/
def smallS0 (x : Nat) : Nat := rotr 7 x ^^^ rotr 18 x ^^^ (x >>> 3)

/-- SHA-256 `σ₁`. -/
def smallS1 (x : Nat) : Nat := rotr 17 x ^^^ rotr 19 x ^^^ (x >>> 10)

/-- SHA-256 round constants (fractional parts of the cube roots of the
first 64 primes). -/
def shaK : List Nat :=
  [1116352408, 1899447441, 3049323471, 3921009573, 961987163, 1508970993,
   2453635748, 2870763221, 3624381080, 310598401, 607225278, 1426881987,
   1925078388, 2162078206, 2614888103, 3248222580, 3835390401, 4022224774,
   264347078, 604807628, 770255983, 1249150122, 1555081692, 1996064986,
   2554220882, 2821834349, 2952996808, 3210313671, 3336571891, 3584528711,
   113926993, 338241895, 666307205, 773529912, 1294757372, 1396182291,
   1695183700, 1986661051, 2177026350, 2456956037, 2730485921, 2820302411,
   3259730800, 3345764771, 3516065817, 3600352804, 4094571909, 275423344,
   430227734, 506948616, 659060556, 883997877, 958139571, 1322822218,
   1537002063, 1747873779, 1955562222, 2024104815, 2227730452, 2361852424,
   2428436474, 2756734187, 3204031479, 3329325298]

/-- SHA-256 initial hash state (fractional parts of the square roots of the
first 8 primes). -/
def shaH0 : List Nat :=
  [1779033703, 3144134277, 1013904242, 2773480762, 1359893119, 2600822924,
   528734635, 1541459225]

/-- Big-endian 8-byte encoding of `n` (the length field of the padding). -/
def beBytes8 (n : Nat) : List Nat :=
  (List.range 8).map (fun i => (n >>> (8 * (7 - i))) % 256)

/-- SHA-256 padding: `0x80`, zeros to 56 mod 64 bytes, then the bit length. -/
def padBytes (msg : List Nat) : List Nat :=
  msg ++ [128] ++ List.replicate ((120 - ((msg.length + 1) % 64)) % 64) 0 ++
    beBytes8 (8 * msg.length)

/-- Group bytes into big-endian 32-bit words. -/
def toWords : List Nat → List Nat
  | a :: b :: c :: d :: rest =>
      (((a * 256 + b) * 256 + c) * 256 + d) :: toWords rest
  | _ => []

/-- Extend sixteen schedule words to sixty-four. -/
def msgSchedule (w16 : List Nat) : List Nat :=
  (List.range 48).foldl
    (fun w _ =>
      let t := w.length
      w ++ [(smallS1 (w.getD (t - 2) 0) + w.getD (t - 7) 0 +
             smallS0 (w.getD (t - 15) 0) + w.getD (t - 16) 0) % M32])
    w16

/-- One SHA-256 compression round; the state is the word list
`[a, b, c, d, e, f, g, h]`. -/
def shaRound (st : List Nat) (kw : Nat × Nat) : List Nat :=
  match st with
  | [a, b, c, d, e, f, g, h] =>
    let t1 := (h + bigS1 e + shaCh e f g + kw.1 + kw.2) % M32
    let t2 := (bigS0 a + shaMaj a b c) % M32
    [(t1 + t2) % M32, a, b, c, (d + t1) % M32, e, f, g]
  | _ => st

/-- Compress one 16-word block into the running hash state. -/
def processBlock (H : List Nat) (block : List Nat) : List Nat :=
  let st := (shaK.zip (msgSchedule block)).foldl shaRound H
  (H.zip st).map (fun p => (p.1 + p.2) % M32)

/-- Fold all 16-word blocks (fuelled on the word count for structural
termination; each step consumes 16 words). -/
def processAllF : Nat → List Nat → List Nat → List Nat
  | 0, H, _ => H
  | fuel + 1, H, ws =>
    if ws = [] then H
    else processAllF fuel (processBlock H (ws.take 16)) (ws.drop 16)

/-- Lower-case hexadecimal digit. -/
def hexDigit (n : Nat) : Char :=
  if n < 10 then Char.ofNat (48 + n) else Char.ofNat (87 + n)

/-- Eight-digit lower-case hex rendering of a 32-bit word. -/
def wordHex (w : Nat) : List Char :=
  (List.range 8).map (fun i => hexDigit ((w >>> (4 * (7 - i))) % 16))

/-- `hashlib.sha256(text.encode()).hexdigest()` for ASCII text. -/
def sha256Hex (text : String) : String :=
  let bytes := padBytes (text.data.map Char.toNat)
  let ws := toWords bytes
  ⟨((processAllF ws.length shaH0 ws).map wordHex).flatten⟩

/-- A row of the `users` table. -/
structure Cred where
  id : Nat
  username : String
  password_hash : String
deriving DecidableEq

/-- The seeding step of `init_db`: `INSERT OR IGNORE INTO users (id,
username, password_hash) VALUES (1, 'admin', sha256('admin123'))` — ignored
when the `PRIMARY KEY` id 1 or the `UNIQUE` username is already taken. -/
def init_users (users : List Cred) : List Cred :=
  if users.any (fun u => u.id == 1 || u.username == "admin") then users
  else users ++ [⟨1, "admin", sha256Hex "admin123"⟩]

/-- `check_credentials`: `SELECT id FROM users WHERE username=? AND
password_hash=?` with the digest of the supplied password; `bool(row)`. -/
def check_credentials (username password : String) (users : List Cred) :
    Bool :=
  users.any (fun u =>
    u.username == username && u.password_hash == sha256Hex password)

/-- The states reachable from the fresh database through the store's
mutating operations, with arbitrary arguments. -/
inductive Reachable : Store → Prop
  | init : Reachable emptyStore
  | insert (n : String) (c : Option String) (q : Option Int) (p : Option ℚ)
      (t : String) {s : Store} :
      Reachable s → Reachable (insert_product n c q p t s).2
  | update (i : Nat) (n : String) (c : Option String) (q : Option Int)
      (p : Option ℚ) {s : Store} :
      Reachable s → Reachable (update_product i n c q p s).2
  | delete (i : Nat) {s : Store} :
      Reachable s → Reachable (delete_product i s).2

/-- The states reachable when every caller supplies non-negative quantity
and price, as the GUI layer enforces through its bounded spin boxes
(`setRange(0, …)`). -/
inductive ReachableNN : Store → Prop
  | init : ReachableNN emptyStore
  | insert (n : String) (c : Option String) (q : Option Int) (p : Option ℚ)
      (t : String) {s : Store} :
      0 ≤ qv q → 0 ≤ pv p →
      ReachableNN s → ReachableNN (insert_product n c q p t s).2
  | update (i : Nat) (n : String) (c : Option String) (q : Option Int)
      (p : Option ℚ) {s : Store} :
      0 ≤ qv q → 0 ≤ pv p →
      ReachableNN s → ReachableNN (update_product i n c q p s).2
  | delete (i : Nat) {s : Store} :
      ReachableNN s → ReachableNN (delete_product i s).2

/-! ## Properties of the stable insertion sort -/

theorem insertBy_perm (le : α → α → Bool) (a : α) (l : List α) :
    (insertBy le a l).Perm (a :: l) := by
  induction l with
  | nil => rfl
  | cons b t ih =>
    by_cases h : le a b = true
    · simp [insertBy, h]
    · simp only [insertBy, h, if_false, Bool.false_eq_true]
      exact (ih.cons b).trans (List.Perm.swap a b t)

theorem sortBy_perm (le : α → α → Bool) (l : List α) : (sortBy le l).Perm l := by
  induction l with
  | nil => rfl
  | cons a t ih => exact (insertBy_perm le a (sortBy le t)).trans (ih.cons a)

theorem mem_sortBy (le : α → α → Bool) (l : List α) (x : α) :
    x ∈ sortBy le l ↔ x ∈ l :=
  (sortBy_perm le l).mem_iff

theorem pairwise_insertBy (le : α → α → Bool)
    (htot : ∀ x y, le x y = true ∨ le y x = true)
    (htrans : ∀ x y z, le x y = true → le y z = true → le x z = true)
    (a : α) (l : List α) (h : List.Pairwise (fun x y => le x y = true) l) :
    List.Pairwise (fun x y => le x y = true) (insertBy le a l) := by
  induction l with
  | nil => simp [insertBy]
  | cons b t ih =>
    rw [List.pairwise_cons] at h
    by_cases hab : le a b = true
    · simp only [insertBy, hab, if_true]
      refine List.Pairwise.cons ?_ (List.Pairwise.cons h.1 h.2)
      intro x hx
      rcases List.mem_cons.1 hx with rfl | hx
      · exact hab
      · exact htrans a b x hab (h.1 x hx)
    · simp only [insertBy, hab, if_false, Bool.false_eq_true]
      refine List.Pairwise.cons ?_ (ih h.2)
      intro x hx
      rcases List.mem_cons.1 ((insertBy_perm le a t).mem_iff.1 hx) with rfl | hx
      · rcases htot x b with hxb | hbx
        · exact absurd hxb hab
        · exact hbx
      · exact h.1 x hx

theorem pairwise_sortBy (le : α → α → Bool)
    (htot : ∀ x y, le x y = true ∨ le y x = true)
    (htrans : ∀ x y z, le x y = true → le y z = true → le x z = true)
    (l : List α) : List.Pairwise (fun x y => le x y = true) (sortBy le l) := by
  induction l with
  | nil => simp [sortBy]
  | cons a t ih => exact pairwise_insertBy le htot htrans a (sortBy le t) ih

theorem filter_insertBy_neg (le : α → α → Bool) (p : α → Bool) (a : α)
    (hpa : p a = false) (l : List α) :
    (insertBy le a l).filter p = l.filter p := by
  induction l with
  | nil => simp [insertBy, List.filter, hpa]
  | cons b t ih =>
    by_cases hab : le a b = true
    · simp [insertBy, hab, List.filter, hpa]
    · simp only [insertBy, hab, if_false, Bool.false_eq_true]
      cases hpb : p b <;> simp [List.filter, hpb, ih]

theorem filter_insertBy_pos (le : α → α → Bool) (p : α → Bool) (a : α)
    (hpa : p a = true) (hskip : ∀ b, le a b = false → p b = false)
    (l : List α) : (insertBy le a l).filter p = a :: l.filter p := by
  induction l with
  | nil => simp [insertBy, List.filter, hpa]
  | cons b t ih =>
    by_cases hab : le a b = true
    · simp [insertBy, hab, List.filter, hpa]
    · have hpb : p b = false := hskip b (by simpa using hab)
      simp only [insertBy, hab, if_false, Bool.false_eq_true]
      simp [List.filter, hpb, ih]

/-- A stable sort leaves the relative order inside any class that the
comparison cannot tell apart (`p` selects such a class): filtering the
sorted list by `p` gives exactly the filtered input list. -/
theorem sortBy_filter_eq (le : α → α → Bool) (p : α → Bool)
    (hcomp : ∀ a b, p a = true → le a b = false → p b = false)
    (l : List α) : (sortBy le l).filter p = l.filter p := by
  induction l with
  | nil => rfl
  | cons a t ih =>
    cases hpa : p a
    · simp only [sortBy]
      rw [filter_insertBy_neg le p a hpa, ih]
      simp [List.filter, hpa]
    · simp only [sortBy]
      rw [filter_insertBy_pos le p a hpa (fun b => hcomp a b hpa), ih]
      simp [List.filter, hpa]

/-! ## Properties of the `LIKE` matcher -/

/-- The fuel of `likeMatchF` is irrelevant once it exceeds
`p.length + s.length`. -/
theorem likeMatchF_congr (n : Nat) : ∀ p s : List Char,
    p.length + s.length = n → ∀ f g, n < f → n < g →
    likeMatchF f p s = likeMatchF g p s := by
  induction n using Nat.strong_induction_on with
  | _ n ih =>
    intro p s hn f g hf hg
    obtain ⟨f, rfl⟩ : ∃ m, f = m + 1 := ⟨f - 1, by omega⟩
    obtain ⟨g, rfl⟩ : ∃ m, g = m + 1 := ⟨g - 1, by omega⟩
    cases p with
    | nil => simp [likeMatchF]
    | cons p0 ps =>
      have hlen : ps.length + 1 + s.length = n := by simpa using hn
      cases s with
      | nil =>
        simp only [likeMatchF]
        by_cases hp : p0 = '%'
        · rw [if_pos hp, if_pos hp,
            ih (ps.length + 0) (by simp at hlen ⊢; omega) ps [] (by simp)
              f g (by simp at hlen ⊢; omega) (by simp at hlen ⊢; omega)]
        · rw [if_neg hp, if_neg hp]
      | cons c s2 =>
        have hlen2 : ps.length + s2.length + 2 = n := by
          simp at hlen; omega
        simp only [likeMatchF]
        by_cases hp : p0 = '%'
        · rw [if_pos hp, if_pos hp,
            ih (ps.length + (s2.length + 1)) (by omega) ps (c :: s2)
              (by simp) f g (by omega) (by omega),
            ih (ps.length + 1 + s2.length) (by omega) (p0 :: ps) s2
              (by simp) f g (by omega) (by omega)]
        · rw [if_neg hp, if_neg hp]
          by_cases hu : p0 = '_'
          · rw [if_pos hu, if_pos hu,
              ih (ps.length + s2.length) (by omega) ps s2 rfl f g
                (by omega) (by omega)]
          · rw [if_neg hu, if_neg hu,
              ih (ps.length + s2.length) (by omega) ps s2 rfl f g
                (by omega) (by omega)]

/-- Any sufficient fuel computes `likeMatch`. -/
theorem likeMatchF_eq (f : Nat) (p s : List Char)
    (h : p.length + s.length < f) : likeMatchF f p s = likeMatch p s :=
  likeMatchF_congr (p.length + s.length) p s rfl f _ h (by omega)

theorem likeMatch_nil_pat (s : List Char) : likeMatch [] s = s.isEmpty := by
  simp [likeMatch, likeMatchF]

theorem likeMatch_percent_nil (ps : List Char) :
    likeMatch ('%' :: ps) [] = likeMatch ps [] := by
  rw [likeMatch]
  simp only [likeMatchF]
  rw [likeMatchF_eq _ ps [] (by simp only [List.length_cons, List.length_nil]; omega)]
  simp

theorem likeMatch_percent_cons (ps : List Char) (c : Char) (s : List Char) :
    likeMatch ('%' :: ps) (c :: s) =
      (likeMatch ps (c :: s) || likeMatch ('%' :: ps) s) := by
  rw [likeMatch]
  simp only [likeMatchF]
  rw [likeMatchF_eq _ ps (c :: s) (by simp only [List.length_cons]; omega),
    likeMatchF_eq _ ('%' :: ps) s (by simp only [List.length_cons]; omega)]
  simp

theorem likeMatch_lit_nil (p : Char) (ps : List Char) (hp : p ≠ '%') :
    likeMatch (p :: ps) [] = false := by
  rw [likeMatch]
  simp only [likeMatchF, if_neg hp]

theorem likeMatch_lit_cons (p : Char) (ps : List Char) (c : Char)
    (s : List Char) (hp : p ≠ '%') (hu : p ≠ '_') :
    likeMatch (p :: ps) (c :: s) =
      ((lowerChar p == lowerChar c) && likeMatch ps s) := by
  rw [likeMatch]
  simp only [likeMatchF, if_neg hp, if_neg hu]
  rw [likeMatchF_eq _ ps s (by simp only [List.length_cons]; omega)]

/-- A pattern headed by `%` matches `s` exactly when the rest of the
pattern matches some suffix of `s`. -/
theorem likeMatch_percent_iff (ps s : List Char) :
    likeMatch ('%' :: ps) s = true ↔
      ∃ s2, s2 <:+ s ∧ likeMatch ps s2 = true := by
  induction s with
  | nil =>
    rw [likeMatch_percent_nil]
    constructor
    · intro h
      exact ⟨[], List.suffix_rfl, h⟩
    · rintro ⟨s2, hs2, h⟩
      rwa [List.suffix_nil.1 hs2] at h
  | cons c s ih =>
    rw [likeMatch_percent_cons, Bool.or_eq_true, ih]
    constructor
    · rintro (h | ⟨s2, hs2, h⟩)
      · exact ⟨c :: s, List.suffix_rfl, h⟩
      · exact ⟨s2, hs2.trans (List.suffix_cons c s), h⟩
    · rintro ⟨s2, hs2, h⟩
      rcases List.suffix_cons_iff.1 hs2 with rfl | hs2
      · exact Or.inl h
      · exact Or.inr ⟨s2, hs2, h⟩

/-- A wildcard-free pattern followed by `%` matches exactly the texts whose
case-folding it prefixes. -/
theorem likeMatch_lit_percent (t : List Char) (h1 : '%' ∉ t)
    (h2 : '_' ∉ t) : ∀ s : List Char,
    (likeMatch (t ++ ['%']) s = true ↔
      t.map lowerChar <+: s.map lowerChar) := by
  induction t with
  | nil =>
    intro s
    rw [List.nil_append]
    constructor
    · intro _
      simp
    · intro _
      rw [likeMatch_percent_iff]
      exact ⟨[], List.nil_suffix, by simp [likeMatch_nil_pat]⟩
  | cons p t ih =>
    intro s
    have hp : p ≠ '%' := fun h => h1 (h ▸ List.mem_cons_self p t)
    have hu : p ≠ '_' := fun h => h2 (h ▸ List.mem_cons_self p t)
    have h1t : '%' ∉ t := fun h => h1 (List.mem_cons_of_mem p h)
    have h2t : '_' ∉ t := fun h => h2 (List.mem_cons_of_mem p h)
    cases s with
    | nil =>
      rw [List.cons_append, likeMatch_lit_nil p (t ++ ['%']) hp]
      simp
    | cons c s =>
      rw [List.cons_append, likeMatch_lit_cons p (t ++ ['%']) c s hp hu,
        Bool.and_eq_true, beq_iff_eq, List.map_cons, List.map_cons,
        List.cons_prefix_cons]
      exact and_congr Iff.rfl (ih h1t h2t s)

/-- The `LIKE '%' || t || '%'` pattern built by `fetch_products`, for a
wildcard-free `t`, matches exactly the texts that contain `t` as an
ASCII-case-insensitive substring. -/
theorem likeMatch_contains (t : List Char) (h1 : '%' ∉ t) (h2 : '_' ∉ t)
    (s : List Char) :
    (likeMatch ('%' :: (t ++ ['%'])) s = true ↔
      t.map lowerChar <:+: s.map lowerChar) := by
  rw [likeMatch_percent_iff]
  constructor
  · rintro ⟨s2, hs2, h⟩
    rw [likeMatch_lit_percent t h1 h2 s2] at h
    exact List.infix_iff_prefix_suffix.2 ⟨s2.map lowerChar, h, hs2.map _⟩
  · intro h
    rcases List.infix_iff_prefix_suffix.1 h with ⟨u, hpre, hsuf⟩
    rcases hsuf with ⟨v, hv⟩
    rcases List.map_eq_append_iff.1 hv.symm with ⟨s1, s2, rfl, _, hs2⟩
    refine ⟨s2, ⟨s1, rfl⟩, ?_⟩
    rw [likeMatch_lit_percent t h1 h2 s2, hs2]
    exact hpre

/-- A pattern consisting only of `%` wildcards matches every text. -/
theorem likeMatch_percents (ps : List Char) (h : ∀ c ∈ ps, c = '%') :
    ∀ s : List Char, likeMatch ('%' :: ps) s = true := by
  induction ps with
  | nil =>
    intro s
    rw [likeMatch_percent_iff]
    exact ⟨[], List.nil_suffix, by simp [likeMatch_nil_pat]⟩
  | cons p ps ih =>
    intro s
    have hp : p = '%' := h p (List.mem_cons_self p ps)
    subst hp
    rw [likeMatch_percent_iff]
    exact ⟨s, List.suffix_rfl,
      ih (fun c hc => h c (List.mem_cons_of_mem _ hc)) s⟩

/-! ## Properties of the `Counter` aggregation -/

/-- The `Counter` association list has pairwise-distinct keys, its keys are
exactly the encountered labels, and each stored count is the number of
occurrences of its key. -/
theorem countOcc_inv (l : List String) :
    ((countOcc l).map Prod.fst).Nodup ∧
    (∀ c : String, c ∈ (countOcc l).map Prod.fst ↔ c ∈ l) ∧
    (∀ q ∈ countOcc l, q.2 = l.count q.1) := by
  induction l using List.reverseRecOn with
  | nil => simp [countOcc]
  | append_singleton l c ih =>
    obtain ⟨hnd, hmem, hcnt⟩ := ih
    have hstep : countOcc (l ++ [c]) = addCount (countOcc l) c := by
      simp [countOcc, List.foldl_append]
    by_cases hany : ∃ q ∈ countOcc l, q.1 = c
    · have hb : (countOcc l).any (fun q => q.1 = c) = true := by
        rcases hany with ⟨q, hq, hq1⟩
        exact List.any_eq_true.2 ⟨q, hq, by simp [hq1]⟩
      have hform : countOcc (l ++ [c]) =
          (countOcc l).map (fun q => if q.1 = c then (q.1, q.2 + 1) else q) := by
        rw [hstep, addCount, if_pos hb]
      have hkeys : (countOcc (l ++ [c])).map Prod.fst =
          (countOcc l).map Prod.fst := by
        rw [hform, List.map_map]
        congr 1
        funext q
        by_cases h : q.1 = c <;> simp [h]
      have hcl : c ∈ l := by
        rcases hany with ⟨q, hq, hq1⟩
        exact (hmem c).1 (hq1 ▸ List.mem_map_of_mem Prod.fst hq)
      refine ⟨hkeys ▸ hnd, ?_, ?_⟩
      · intro d
        rw [hkeys, hmem, List.mem_append, List.mem_singleton]
        constructor
        · exact Or.inl
        · rintro (h | rfl)
          · exact h
          · exact hcl
      · intro q hq
        rw [hform] at hq
        rcases List.mem_map.1 hq with ⟨q0, hq0, rfl⟩
        by_cases h : q0.1 = c
        · simp only [h, if_pos rfl]
          rw [List.count_append, hcnt q0 hq0, h]
          simp
        · simp only [if_neg h]
          rw [List.count_append, hcnt q0 hq0]
          simp [List.count_cons, h]
    · have hb : (countOcc l).any (fun q => q.1 = c) = false := by
        rw [List.any_eq_false]
        intro q hq
        simp only [decide_eq_true_eq]
        exact fun h => hany ⟨q, hq, h⟩
      have hform : countOcc (l ++ [c]) = countOcc l ++ [(c, 1)] := by
        rw [hstep, addCount, if_neg (by simp [hb])]
      have hckeys : c ∉ (countOcc l).map Prod.fst := by
        intro h
        rcases List.mem_map.1 h with ⟨q, hq, hq1⟩
        exact hany ⟨q, hq, hq1⟩
      have hcl : c ∉ l := fun h => hckeys ((hmem c).2 h)
      refine ⟨?_, ?_, ?_⟩
      · rw [hform, List.map_append, List.nodup_append]
        exact ⟨hnd, List.nodup_singleton c,
          fun d hd => by simp only [List.map_cons, List.map_nil,
            List.mem_singleton]; rintro rfl; exact hckeys hd⟩
      · intro d
        rw [hform, List.map_append, List.mem_append, hmem,
          List.mem_append]
        simp
      · intro q hq
        rw [hform] at hq
        rcases List.mem_append.1 hq with hq | hq
        · have hne : q.1 ≠ c := fun h =>
            hany ⟨q, hq, h⟩
          rw [List.count_append, hcnt q hq]
          simp [List.count_cons, hne]
        · rw [List.mem_singleton] at hq
          subst hq
          rw [List.count_append]
          simp [List.count_eq_zero.2 hcl]

/-! ## Small helpers and concrete fixtures -/

theorem list_map_id_on (f : α → α) (l : List α) (h : ∀ a ∈ l, f a = a) :
    l.map f = l := by
  induction l with
  | nil => rfl
  | cons a t ih =>
    rw [List.map_cons, h a (List.mem_cons_self a t),
      ih (fun b hb => h b (List.mem_cons_of_mem a hb))]

theorem zip_map_snd (f : α → β) : ∀ (l : List α) (pr : α × β),
    pr ∈ l.zip (l.map f) → pr.2 = f pr.1 := by
  intro l
  induction l with
  | nil => simp
  | cons a t ih =>
    intro pr hpr
    rw [List.map_cons, List.zip_cons_cons] at hpr
    rcases List.mem_cons.1 hpr with rfl | hpr
    · rfl
    · exact ih pr hpr

theorem rowMatches_percents (ps : List Char) (h : ∀ c ∈ ps, c = '%')
    (r : Product) : rowMatches ('%' :: ps) r = true := by
  unfold rowMatches
  rw [likeMatch_percents ps h r.name.data]
  simp

/-- Fixture: a product whose name matches "Wid" only up to ASCII case. -/
def wprod : Product := ⟨1, "widget", some "Tools", some 1, some 1, "t"⟩

/-- Fixture: a one-row store holding `wprod`. -/
def wstore : Store := ⟨2, [wprod]⟩

/-- Fixture: the store of the spec's dashboard scenario, built by three
inserts into the fresh database. -/
def scenarioStore : Store :=
  (insert_product "Gadget" (some "Electronics") (some 1) (some 100) "t3"
    (insert_product "Widget B" (some "Tools") (some 5) (some 3) "t2"
      (insert_product "Widget A" (some "Tools") (some 10) (some (5 / 2)) "t1"
        emptyStore).2).2).2

/-! ## Claim C2: update/delete on an absent id -/

/-- A nearby statement to claim C2 that does hold: on an id that is not
stored, `update_product` and `delete_product` return success (`true`, not
`false`) and leave the store unchanged, so the zero-rows-affected no-op is
indistinguishable from a successful mutation without re-querying. -/
theorem C2_theorem (s : Store) (i : Nat) (n : String) (c : Option String)
    (q : Option Int) (p : Option ℚ) (h : i ∉ s.rows.map Product.id) :
    update_product i n c q p s = (true, s) ∧
    delete_product i s = (true, s) := by
  obtain ⟨ni, rows⟩ := s
  have hid : ∀ r ∈ rows, r.id ≠ i := by
    intro r hr he
    exact h (he ▸ List.mem_map_of_mem Product.id hr)
  constructor
  · unfold update_product
    simp only [Prod.mk.injEq, Store.mk.injEq, true_and]
    exact list_map_id_on _ rows (fun r hr => if_neg (hid r hr))
  · unfold delete_product
    simp only [Prod.mk.injEq, Store.mk.injEq, true_and]
    exact List.filter_eq_self.2
      (fun r hr => by simpa [bne_iff_ne] using hid r hr)

/-- Witness for `C2_theorem` at a concrete absent id. -/
theorem C2_witness :
    (5 ∉ emptyStore.rows.map Product.id) ∧
    (update_product 5 "x" none none none emptyStore = (true, emptyStore) ∧
      delete_product 5 emptyStore = (true, emptyStore)) :=
  ⟨by decide, C2_theorem emptyStore 5 "x" none none none (by decide)⟩

/-- Counterexample to claim C2 as stated: on the absent id 5 the code
reports `true` (success), not the claimed `false`/failure. -/
theorem C2_counterexample :
    (5 ∈ emptyStore.rows.map Product.id ↔ False) ∧
    (update_product 5 "x" none none none emptyStore).1 = true ∧
    (delete_product 5 emptyStore).1 = true := by
  refine ⟨?_, rfl, rfl⟩
  simp [emptyStore]

/-! ## Claim C5: what insert returns -/

/-- Counterexample to claim C5 as stated: `insert_product` does not return
the newly created Product record (or anything determining it) — its return
value is the bare success flag `True`, identical for two inserts that
create different records. -/
theorem C5_counterexample :
    (insert_product "A" none none none "t" emptyStore).1 =
      (insert_product "B" none none none "t" emptyStore).1 ∧
    (insert_product "A" none none none "t" emptyStore).2 ≠
      (insert_product "B" none none none "t" emptyStore).2 := by
  refine ⟨rfl, ?_⟩
  decide

/-- A nearby statement to claim C5 that does hold: `insert_product`
assigns the fresh AUTOINCREMENT id and the creation timestamp at insertion
time, appends exactly that record, and returns the boolean success flag
`true` (not the record). -/
theorem C5_theorem (s : Store) (n : String) (c : Option String)
    (q : Option Int) (p : Option ℚ) (t : String)
    (hids : ∀ r ∈ s.rows, r.id < s.nextId) :
    (insert_product n c q p t s).1 = true ∧
    s.nextId ∉ s.rows.map Product.id ∧
    (insert_product n c q p t s).2.rows =
      s.rows ++ [⟨s.nextId, n, c, q, p, t⟩] ∧
    (⟨s.nextId, n, c, q, p, t⟩ : Product) ∈
      fetch_products "" (insert_product n c q p t s).2 := by
  refine ⟨rfl, ?_, rfl, ?_⟩
  · intro hmem
    rcases List.mem_map.1 hmem with ⟨r, hr, hid⟩
    exact absurd (hid ▸ hids r hr) (lt_irrefl _)
  · rw [fetch_products, if_pos rfl, mem_sortBy]
    exact List.mem_append.2 (Or.inr (List.mem_singleton.2 rfl))

/-- Witness for `C5_theorem` on the fresh store. -/
theorem C5_witness :
    (∀ r ∈ emptyStore.rows, r.id < emptyStore.nextId) ∧
    ((insert_product "A" (some "T") (some 2) (some 3) "t" emptyStore).1 =
        true ∧
      emptyStore.nextId ∉ emptyStore.rows.map Product.id ∧
      (insert_product "A" (some "T") (some 2) (some 3) "t"
          emptyStore).2.rows =
        emptyStore.rows ++ [⟨emptyStore.nextId, "A", some "T", some 2,
          some 3, "t"⟩] ∧
      (⟨emptyStore.nextId, "A", some "T", some 2, some 3, "t"⟩ : Product) ∈
        fetch_products ""
          (insert_product "A" (some "T") (some 2) (some 3) "t"
            emptyStore).2) :=
  ⟨by decide,
    C5_theorem emptyStore "A" (some "T") (some 2) (some 3) "t" (by decide)⟩

/-! ## Claim C10: wildcard filters use LIKE semantics -/

/-- Claim C10: a filter text consisting of the wildcard `%` is interpolated
into the `LIKE` pattern unescaped, so `fetch_products "%"` returns every
product — exactly what the empty filter returns — including (concretely) a
product whose name `"abc"` and missing category contain no `%` at all. -/
theorem C10_theorem (s : Store) :
    fetch_products "%" s = fetch_products "" s ∧
    fetch_products "%" (⟨2, [⟨1, "abc", none, some 1, some 1, "t"⟩]⟩ : Store)
      = [⟨1, "abc", none, some 1, some 1, "t"⟩] ∧
    ¬ '%' ∈ "abc".data := by
  refine ⟨?_, by decide, by decide⟩
  have hne : ("%" : String) ≠ "" := by decide
  unfold fetch_products
  rw [if_neg hne, if_pos rfl]
  congr 1
  apply List.filter_eq_self.2
  intro r _
  have hpat : ('%' :: ("%".data ++ ['%'])) = '%' :: ['%', '%'] := rfl
  rw [hpat]
  exact rowMatches_percents ['%', '%'] (by decide) r

/-! ## Claim C3: dashboard totals -/

/-- Claim C3: for every store, `total_products` counts all rows (ignoring
any filter), `total_quantity` sums `quantity` with `NULL` as 0,
`total_value` sums `quantity × price`; the empty store yields all zeros;
and the spec's three-insert scenario yields `3, 16, 140.00`. -/
theorem C3_theorem (s : Store) :
    (update_dashboard s).total_products = s.rows.length ∧
    (update_dashboard s).total_quantity =
      (s.rows.map (fun r => qv r.quantity)).sum ∧
    (update_dashboard s).total_value =
      (s.rows.map (fun r => (qv r.quantity : ℚ) * pv r.price)).sum ∧
    (update_dashboard emptyStore).total_products = 0 ∧
    (update_dashboard emptyStore).total_quantity = 0 ∧
    (update_dashboard emptyStore).total_value = 0 ∧
    (update_dashboard scenarioStore).total_products = 3 ∧
    (update_dashboard scenarioStore).total_quantity = 16 ∧
    (update_dashboard scenarioStore).total_value = 140 := by
  have hfetch : fetch_products "" s = sortBy prodDesc s.rows := by
    rw [fetch_products, if_pos rfl]
  refine ⟨?_, ?_, ?_, by decide, by decide, by with_unfolding_all decide,
    by decide, by decide, by with_unfolding_all decide⟩
  · show (fetch_products "" s).length = s.rows.length
    rw [hfetch]
    exact (sortBy_perm prodDesc s.rows).length_eq
  · show ((fetch_products "" s).map (fun r => qv r.quantity)).sum = _
    rw [hfetch]
    exact ((sortBy_perm prodDesc s.rows).map _).sum_eq
  · show ((fetch_products "" s).map
      (fun r => (qv r.quantity : ℚ) * pv r.price)).sum = _
    rw [hfetch]
    exact ((sortBy_perm prodDesc s.rows).map _).sum_eq

/-! ## Claim C8: credential verification -/

/-- SHA-256 faithfulness anchor: the embedded digest of `"admin123"` agrees
with the standard SHA-256 value. -/
theorem sha256Hex_admin123 :
    sha256Hex "admin123" =
      "240be518fabd2724ddb6f04eeb1da5967448d7e831c08c8fa822809f74c720a9" := by
  decide

/-- Claim C8: `check_credentials` digests the supplied password and reports
whether some stored user row matches both username and digest; right after
the first `init_db` run on an empty user table, `("admin", "admin123")`
verifies and `("admin", "wrong")` does not. -/
theorem C8_theorem (users : List Cred) (u pw : String) :
    (check_credentials u pw users = true ↔
      ∃ cr ∈ users, cr.username = u ∧ cr.password_hash = sha256Hex pw) ∧
    check_credentials "admin" "admin123" (init_users []) = true ∧
    check_credentials "admin" "wrong" (init_users []) = false := by
  refine ⟨?_, by decide, by decide⟩
  unfold check_credentials
  rw [List.any_eq_true]
  constructor
  · rintro ⟨cr, hcr, hb⟩
    rw [Bool.and_eq_true, beq_iff_eq, beq_iff_eq] at hb
    exact ⟨cr, hcr, hb⟩
  · rintro ⟨cr, hcr, h1, h2⟩
    refine ⟨cr, hcr, ?_⟩
    rw [Bool.and_eq_true, beq_iff_eq, beq_iff_eq]
    exact ⟨h1, h2⟩

/-! ## Claim C1: the search filter -/

/-- A nearby statement to claim C1 that does hold: for a non-empty filter
text free of the `LIKE` wildcards `%` and `_`, `fetch_products` returns
exactly the stored products whose name or category contains the filter as
an ASCII-case-insensitive substring (not the claimed case-sensitive match),
and the empty filter returns all products. -/
theorem C1_theorem (s : Store) (t : String) (r : Product) (hne : t ≠ "")
    (hpc : '%' ∉ t.data) (hus : '_' ∉ t.data) :
    (r ∈ fetch_products t s ↔ r ∈ s.rows ∧
      (t.data.map lowerChar <:+: r.name.data.map lowerChar ∨
        ∃ c, r.category = some c ∧
          t.data.map lowerChar <:+: c.data.map lowerChar)) ∧
    (r ∈ fetch_products "" s ↔ r ∈ s.rows) := by
  constructor
  · rw [fetch_products, if_neg hne, mem_sortBy, List.mem_filter]
    apply and_congr Iff.rfl
    rw [rowMatches, Bool.or_eq_true]
    apply or_congr
    · exact likeMatch_contains t.data hpc hus r.name.data
    · cases hc : r.category with
      | none => simp
      | some c =>
        rw [likeMatch_contains t.data hpc hus c.data]
        simp
  · rw [fetch_products, if_pos rfl, mem_sortBy]

/-- Witness for `C1_theorem` at the filter `"Wid"` on the fixture store. -/
theorem C1_witness :
    (("Wid" : String) ≠ "" ∧ '%' ∉ "Wid".data ∧ '_' ∉ "Wid".data) ∧
    ((wprod ∈ fetch_products "Wid" wstore ↔ wprod ∈ wstore.rows ∧
        ("Wid".data.map lowerChar <:+: wprod.name.data.map lowerChar ∨
          ∃ c, wprod.category = some c ∧
            "Wid".data.map lowerChar <:+: c.data.map lowerChar)) ∧
      (wprod ∈ fetch_products "" wstore ↔ wprod ∈ wstore.rows)) :=
  ⟨⟨by decide, by decide, by decide⟩,
    C1_theorem wstore "Wid" wprod (by decide) (by decide) (by decide)⟩

/-- Counterexample to claim C1 as stated: `fetch_products "Wid"` returns
the row named `"widget"` although neither its name nor its category
contains `"Wid"` as a case-sensitive substring — SQLite's default `LIKE`
compares ASCII characters case-insensitively. -/
theorem C1_counterexample :
    fetch_products "Wid" wstore = [wprod] ∧
    wprod.name = "widget" ∧ wprod.category = some "Tools" ∧
    ¬ "Wid".data <:+: "widget".data ∧
    ¬ "Wid".data <:+: "Tools".data := by
  refine ⟨by decide, rfl, rfl, by decide, by decide⟩

/-! ## Claim C6: update frame -/

/-- Claim C6: updating an id that is present rewrites exactly the four
payload fields of the rows carrying that id and leaves every `added_on`
field, every id, and every other row unchanged (rows are compared
positionally via `zip`; the row count is preserved). -/
theorem C6_theorem (s : Store) (i : Nat) (n : String) (c : Option String)
    (q : Option Int) (p : Option ℚ) (h : i ∈ s.rows.map Product.id) :
    (update_product i n c q p s).1 = true ∧
    (update_product i n c q p s).2.nextId = s.nextId ∧
    (update_product i n c q p s).2.rows.length = s.rows.length ∧
    ∀ pr ∈ s.rows.zip (update_product i n c q p s).2.rows,
      pr.2.added_on = pr.1.added_on ∧ pr.2.id = pr.1.id ∧
      (pr.1.id ≠ i → pr.2 = pr.1) ∧
      (pr.1.id = i →
        pr.2 = ⟨pr.1.id, n, c, q, p, pr.1.added_on⟩) := by
  refine ⟨rfl, rfl, by simp [update_product], ?_⟩
  intro pr hpr
  have hz := zip_map_snd _ s.rows pr hpr
  by_cases hid : pr.1.id = i
  · rw [if_pos hid] at hz
    rw [hz]
    exact ⟨rfl, rfl, fun hne => absurd hid hne, fun _ => rfl⟩
  · rw [if_neg hid] at hz
    rw [hz]
    exact ⟨rfl, rfl, fun _ => rfl, fun he => absurd he hid⟩

/-- Witness for `C6_theorem` on the fixture store. -/
theorem C6_witness :
    (1 ∈ wstore.rows.map Product.id) ∧
    ((update_product 1 "w2" (some "T2") (some 4) (some 7) wstore).1 =
        true ∧
      (update_product 1 "w2" (some "T2") (some 4) (some 7)
          wstore).2.nextId = wstore.nextId ∧
      (update_product 1 "w2" (some "T2") (some 4) (some 7)
          wstore).2.rows.length = wstore.rows.length ∧
      ∀ pr ∈ wstore.rows.zip
          (update_product 1 "w2" (some "T2") (some 4) (some 7)
            wstore).2.rows,
        pr.2.added_on = pr.1.added_on ∧ pr.2.id = pr.1.id ∧
        (pr.1.id ≠ 1 → pr.2 = pr.1) ∧
        (pr.1.id = 1 → pr.2 = ⟨pr.1.id, "w2", some "T2", some 4, some 7,
          pr.1.added_on⟩)) :=
  ⟨by decide, C6_theorem wstore 1 "w2" (some "T2") (some 4) (some 7)
    (by decide)⟩

/-! ## Claim C9: newest-first ordering -/

theorem sortBy_prodDesc_strict (l : List Product)
    (hnd : (l.map Product.id).Nodup) :
    List.Pairwise (fun a b : Product => b.id < a.id) (sortBy prodDesc l) := by
  have hp : List.Pairwise (fun a b => prodDesc a b = true)
      (sortBy prodDesc l) := by
    refine pairwise_sortBy prodDesc ?_ ?_ l
    · intro x y
      rcases Nat.le_total y.id x.id with h | h
      · exact Or.inl (by simpa [prodDesc] using h)
      · exact Or.inr (by simpa [prodDesc] using h)
    · intro x y z hxy hyz
      simp only [prodDesc, decide_eq_true_eq] at hxy hyz ⊢
      omega
  have hnd2 : ((sortBy prodDesc l).map Product.id).Nodup :=
    ((sortBy_perm prodDesc l).map Product.id).nodup_iff.2 hnd
  have hne : List.Pairwise (fun a b : Product => a.id ≠ b.id)
      (sortBy prodDesc l) := List.pairwise_map.1 hnd2
  exact (hp.and hne).imp (fun h =>
    lt_of_le_of_ne (by simpa [prodDesc, decide_eq_true_eq] using h.1)
      (Ne.symm h.2))

/-- Claim C9: whenever the stored ids are pairwise distinct (as the
`INTEGER PRIMARY KEY` column guarantees), `fetch_products` returns its
rows — filtered or not — in strictly descending id order (newest first). -/
theorem C9_theorem (s : Store) (t : String)
    (h : (s.rows.map Product.id).Nodup) :
    List.Pairwise (fun a b : Product => b.id < a.id)
      (fetch_products t s) := by
  unfold fetch_products
  by_cases he : t = ""
  · rw [if_pos he]
    exact sortBy_prodDesc_strict s.rows h
  · rw [if_neg he]
    apply sortBy_prodDesc_strict
    exact (((List.filter_sublist s.rows).map Product.id).nodup h)

/-- Witness for `C9_theorem` on a two-row store. -/
theorem C9_witness :
    (((⟨3, [wprod, ⟨2, "Box", some "Misc", some 2, some 2, "t2"⟩]⟩ :
        Store).rows.map Product.id).Nodup) ∧
    List.Pairwise (fun a b : Product => b.id < a.id)
      (fetch_products ""
        (⟨3, [wprod, ⟨2, "Box", some "Misc", some 2, some 2, "t2"⟩]⟩ :
          Store)) :=
  ⟨by decide, C9_theorem _ "" (by decide)⟩

/-! ## Claim C7: store invariants -/

/-- Invariant of the guarded reachable states: ids below the counter and
pairwise distinct, quantities and prices non-negative. -/
theorem reachableNN_inv (s : Store) (h : ReachableNN s) :
    (∀ r ∈ s.rows, r.id < s.nextId) ∧
    (s.rows.map Product.id).Nodup ∧
    (∀ r ∈ s.rows, 0 ≤ qv r.quantity ∧ 0 ≤ pv r.price) := by
  induction h with
  | init => exact ⟨by simp [emptyStore], by simp [emptyStore],
      by simp [emptyStore]⟩
  | @insert n c q p t s hq hp _ ih =>
    obtain ⟨hlt, hnd, hnn⟩ := ih
    simp only [insert_product]
    refine ⟨?_, ?_, ?_⟩
    · intro r hr
      rcases List.mem_append.1 hr with hr | hr
      · exact Nat.lt_succ_of_lt (hlt r hr)
      · rw [List.mem_singleton] at hr
        subst hr
        exact Nat.lt_succ_self _
    · rw [List.map_append, List.nodup_append]
      refine ⟨hnd, by simp, ?_⟩
      intro a ha
      simp only [List.map_cons, List.map_nil, List.mem_singleton]
      rintro rfl
      rcases List.mem_map.1 ha with ⟨r, hr, hid⟩
      exact absurd (hid ▸ hlt r hr) (lt_irrefl _)
    · intro r hr
      rcases List.mem_append.1 hr with hr | hr
      · exact hnn r hr
      · rw [List.mem_singleton] at hr
        subst hr
        exact ⟨hq, hp⟩
  | @update i n c q p s hq hp _ ih =>
    obtain ⟨hlt, hnd, hnn⟩ := ih
    have hid : ∀ r0 : Product,
        ((fun r => if r.id = i then
          { r with name := n, category := c, quantity := q, price := p }
          else r) r0).id = r0.id := by
      intro r0
      by_cases h0 : r0.id = i <;> simp [h0]
    simp only [update_product]
    refine ⟨?_, ?_, ?_⟩
    · intro r hr
      rcases List.mem_map.1 hr with ⟨r0, hr0, rfl⟩
      rw [hid r0]
      exact hlt r0 hr0
    · rw [List.map_map]
      have : ((fun r0 : Product => ((fun r => if r.id = i then
          { r with name := n, category := c, quantity := q, price := p }
          else r) r0).id)) = Product.id := funext hid
      rw [Function.comp_def, this]
      exact hnd
    · intro r hr
      rcases List.mem_map.1 hr with ⟨r0, hr0, rfl⟩
      by_cases h0 : r0.id = i
      · simp only [h0, if_pos rfl]
        exact ⟨hq, hp⟩
      · rw [if_neg h0]
        exact hnn r0 hr0
  | @delete i s _ ih =>
    obtain ⟨hlt, hnd, hnn⟩ := ih
    simp only [delete_product]
    refine ⟨?_, ?_, ?_⟩
    · intro r hr
      exact hlt r (List.mem_of_mem_filter hr)
    · exact ((List.filter_sublist s.rows).map Product.id).nodup hnd
    · intro r hr
      exact hnn r (List.mem_of_mem_filter hr)

/-- A nearby statement to claim C7 that does hold: in every state reachable
through the store's operations *with non-negative quantity and price
arguments* (the calling layer enforces this through its bounded numeric
inputs), all ids are distinct and no quantity or price is negative; and —
for arbitrary arguments — `update_product` never changes any `added_on`
while `insert_product` assigns the new record's `added_on` exactly at
creation time. -/
theorem C7_theorem (s : Store) (h : ReachableNN s) (i : Nat) (n : String)
    (c : Option String) (q : Option Int) (p : Option ℚ) (t : String) :
    (s.rows.map Product.id).Nodup ∧
    (∀ r ∈ s.rows, 0 ≤ qv r.quantity ∧ 0 ≤ pv r.price) ∧
    (update_product i n c q p s).2.rows.map Product.added_on =
      s.rows.map Product.added_on ∧
    (insert_product n c q p t s).2.rows.map Product.added_on =
      s.rows.map Product.added_on ++ [t] := by
  obtain ⟨_, hnd, hnn⟩ := reachableNN_inv s h
  refine ⟨hnd, hnn, ?_, by simp [insert_product]⟩
  simp only [update_product, List.map_map]
  apply List.map_congr_left
  intro r _
  by_cases h0 : r.id = i <;> simp [h0]

/-- Witness for `C7_theorem` on a concretely reachable store. -/
theorem C7_witness :
    ReachableNN wstore ∧
    ((wstore.rows.map Product.id).Nodup ∧
      (∀ r ∈ wstore.rows, 0 ≤ qv r.quantity ∧ 0 ≤ pv r.price) ∧
      (update_product 1 "u" none none none wstore).2.rows.map
        Product.added_on = wstore.rows.map Product.added_on ∧
      (insert_product "u" none none none "t9" wstore).2.rows.map
        Product.added_on = wstore.rows.map Product.added_on ++ ["t9"]) := by
  have hre : ReachableNN wstore :=
    ReachableNN.insert "widget" (some "Tools") (some 1) (some 1) "t"
      (by decide) (by decide) ReachableNN.init
  exact ⟨hre, C7_theorem wstore hre 1 "u" none none none "t9"⟩

/-- Counterexample to claim C7 as stated: the store's own operations accept
negative arguments (only the GUI bounds them), so a state holding a product
with quantity `-1` is reachable. -/
theorem C7_counterexample :
    Reachable (insert_product "x" none (some (-1)) (some 0) "t"
      emptyStore).2 ∧
    ¬ (∀ r ∈ (insert_product "x" none (some (-1)) (some 0) "t"
        emptyStore).2.rows, 0 ≤ qv r.quantity) :=
  ⟨Reachable.insert "x" none (some (-1)) (some 0) "t" Reachable.init,
    by decide⟩

/-! ## Claim C4: top categories -/

/-- Claim C4: `top_categories` is a ≤ 8-entry mapping from category label
to product count, sorted by descending count, holding only the categories
with the highest counts (every omitted category counts no more than any
retained entry), with distinct keys, ties kept in first-encounter
aggregation order (the filter-prefix clause), and with missing/empty
categories folded into `"Uncategorized"` by the `catLabel` labelling that
`labels` records. -/
theorem C4_theorem (s : Store) (labels : List String)
    (tc : List (String × Nat))
    (hl : labels = (fetch_products "" s).map (fun r => catLabel r.category))
    (htc : tc = (update_dashboard s).top_categories) :
    tc.length ≤ 8 ∧
    List.Pairwise (fun a b : String × Nat => b.2 ≤ a.2) tc ∧
    (∀ q ∈ tc, q.1 ∈ labels ∧ q.2 = labels.count q.1) ∧
    (tc.map Prod.fst).Nodup ∧
    (∀ d ∈ labels, d ∉ tc.map Prod.fst → ∀ q ∈ tc,
      labels.count d ≤ q.2) ∧
    (∀ v : Nat, tc.filter (fun q => q.2 == v) <+:
      (countOcc labels).filter (fun q => q.2 == v)) := by
  have htc2 : tc = (sortBy cntDesc (countOcc labels)).take 8 := by
    rw [htc, hl]
    rfl
  obtain ⟨hnd, hmem, hcnt⟩ := countOcc_inv labels
  have htot : ∀ x y : String × Nat,
      cntDesc x y = true ∨ cntDesc y x = true := by
    intro x y
    rcases Nat.le_total y.2 x.2 with h | h
    · exact Or.inl (by simpa [cntDesc] using h)
    · exact Or.inr (by simpa [cntDesc] using h)
  have htrans : ∀ x y z : String × Nat, cntDesc x y = true →
      cntDesc y z = true → cntDesc x z = true := by
    intro x y z hxy hyz
    simp only [cntDesc, decide_eq_true_eq] at hxy hyz ⊢
    omega
  have hsorted := pairwise_sortBy cntDesc htot htrans (countOcc labels)
  have hperm := sortBy_perm cntDesc (countOcc labels)
  subst htc2
  refine ⟨List.length_take_le 8 _, ?_, ?_, ?_, ?_, ?_⟩
  · exact (List.Pairwise.sublist (List.take_sublist 8 _) hsorted).imp
      (fun hab => by simpa [cntDesc, decide_eq_true_eq] using hab)
  · intro q hq
    have hqCO : q ∈ countOcc labels :=
      hperm.mem_iff.1 (List.mem_of_mem_take hq)
    exact ⟨(hmem q.1).1 (List.mem_map_of_mem Prod.fst hqCO), hcnt q hqCO⟩
  · have hndSC : ((sortBy cntDesc (countOcc labels)).map Prod.fst).Nodup :=
      (hperm.map Prod.fst).nodup_iff.2 hnd
    rw [List.map_take]
    exact (List.take_sublist 8 _).nodup hndSC
  · intro d hd hdnot q hq
    rcases List.mem_map.1 ((hmem d).2 hd) with ⟨q0, hq0CO, hq0d⟩
    have hq0SC : q0 ∈ sortBy cntDesc (countOcc labels) :=
      hperm.mem_iff.2 hq0CO
    have hq0take : q0 ∉ (sortBy cntDesc (countOcc labels)).take 8 := by
      intro hmem0
      exact hdnot (hq0d ▸ List.mem_map_of_mem Prod.fst hmem0)
    have hq0drop : q0 ∈ (sortBy cntDesc (countOcc labels)).drop 8 := by
      have hsplit : q0 ∈ (sortBy cntDesc (countOcc labels)).take 8 ++
          (sortBy cntDesc (countOcc labels)).drop 8 := by
        rw [List.take_append_drop]
        exact hq0SC
      rcases List.mem_append.1 hsplit with h | h
      · exact absurd h hq0take
      · exact h
    have hpw := List.pairwise_append.1
      (show List.Pairwise (fun a b => cntDesc a b = true)
        ((sortBy cntDesc (countOcc labels)).take 8 ++
          (sortBy cntDesc (countOcc labels)).drop 8) by
        rw [List.take_append_drop]
        exact hsorted)
    have hle := hpw.2.2 q hq q0 hq0drop
    rw [← hq0d, ← hcnt q0 hq0CO]
    simpa [cntDesc, decide_eq_true_eq] using hle
  · intro v
    have hcomp : ∀ a b : String × Nat, (a.2 == v) = true →
        cntDesc a b = false → (b.2 == v) = false := by
      intro a b hpa hle
      rw [beq_iff_eq] at hpa
      rw [beq_eq_false_iff_ne]
      simp only [cntDesc, decide_eq_false_iff_not] at hle
      omega
    have hfeq := sortBy_filter_eq cntDesc (fun q => q.2 == v) hcomp
      (countOcc labels)
    rw [← hfeq]
    conv_rhs => rw [← List.take_append_drop 8
      (sortBy cntDesc (countOcc labels))]
    rw [List.filter_append]
    exact List.prefix_append _ _

/-- Witness for `C4_theorem` on the three-insert scenario store. -/
theorem C4_witness :
    ((["Electronics", "Tools", "Tools"] : List String) =
        (fetch_products "" scenarioStore).map
          (fun r => catLabel r.category) ∧
      ([("Tools", 2), ("Electronics", 1)] : List (String × Nat)) =
        (update_dashboard scenarioStore).top_categories) ∧
    (([("Tools", 2), ("Electronics", 1)] : List (String × Nat)).length ≤ 8 ∧
      List.Pairwise (fun a b : String × Nat => b.2 ≤ a.2)
        [("Tools", 2), ("Electronics", 1)] ∧
      (∀ q ∈ ([("Tools", 2), ("Electronics", 1)] : List (String × Nat)),
        q.1 ∈ (["Electronics", "Tools", "Tools"] : List String) ∧
          q.2 = (["Electronics", "Tools", "Tools"] :
            List String).count q.1) ∧
      (([("Tools", 2), ("Electronics", 1)] :
        List (String × Nat)).map Prod.fst).Nodup ∧
      (∀ d ∈ (["Electronics", "Tools", "Tools"] : List String),
        d ∉ ([("Tools", 2), ("Electronics", 1)] :
          List (String × Nat)).map Prod.fst →
        ∀ q ∈ ([("Tools", 2), ("Electronics", 1)] : List (String × Nat)),
          (["Electronics", "Tools", "Tools"] :
            List String).count d ≤ q.2) ∧
      (∀ v : Nat, ([("Tools", 2), ("Electronics", 1)] :
          List (String × Nat)).filter (fun q => q.2 == v) <+:
        (countOcc ["Electronics", "Tools", "Tools"]).filter
          (fun q => q.2 == v))) :=
  ⟨⟨by decide, by decide⟩,
    C4_theorem scenarioStore ["Electronics", "Tools", "Tools"]
      [("Tools", 2), ("Electronics", 1)] (by decide) (by decide)⟩

end Inventory
